import Mathlib

/-!
Verification of the storage-design capacity model.

The source program (src/src/main.rs) computes, for a multi-level fixed-fanout
index atop a sorted data file, the fan-out, height, per-level coverage and
total byte footprint of several index kinds.  All source arithmetic is over
`u64`; we embed it over `Nat` (values in the model stay far below `2^64` for
the parameter ranges the program sweeps, and no subtraction occurs).

The coverage loop in `Index::new` is a genuine `loop { .. }` that can diverge
when `entries_per_block <= 1`; we embed it with an explicit fuel parameter
(`coverageAux`), and `Index.new` supplies `total_values + 1` units of fuel,
which is proved sufficient whenever `entries_per_block >= 2` and the base
coverage is positive (the loop at least doubles its accumulator each step, so
it breaks after at most `total_values - base` iterations).  Non-termination of
the source loop shows up as fuel exhaustion: the result list then has length
equal to the fuel, never having reached the break condition.
-/

namespace StorageDesign

/-- Embeds `struct Params` (main.rs lines 10-30): the sizing inputs, all
`u64` fields in the source, here `Nat`. -/
structure Params where
  total_data_size : Nat
  value_size : Nat
  min_data_block : Nat
  min_index_block : Nat
  min_branch : Nat

/-- Embeds `Params::total_values` (main.rs lines 34-36):
`total_data_size / value_size`, truncating integer division. -/
def Params.total_values (p : Params) : Nat :=
  p.total_data_size / p.value_size

/-- Embeds `enum IndexType` (main.rs lines 246-260). -/
inductive IndexType where
  | Data
  | C1Row
  | Row
  | Filter

/-- Embeds `struct Index` (main.rs lines 39-64). -/
structure Index where
  params : Params
  index_type : IndexType
  index_entry_size : Nat
  entries_per_block : Nat
  block_size : Nat
  coverage : List Nat
  height : Nat

/-- Embeds the `loop` in `Index::new` (main.rs lines 79-86).  The source
keeps the list built so far and each iteration reads
`last = coverage.last().copied().unwrap_or(values_per_data_block)`; since the
only element ever appended is the new `last`, this is equivalent to carrying
the accumulator `last` directly, which is what we do.  Each iteration checks
`last >= total_values` and breaks, else appends `last * entries_per_block`.
`fuel` bounds the number of iterations; running out of fuel models the source
loop failing to terminate within that many iterations. -/
def coverageAux (total_values entries_per_block : Nat) : Nat → Nat → List Nat
  | 0, _ => []
  | fuel + 1, last =>
    if total_values ≤ last then []
    else (last * entries_per_block) ::
      coverageAux total_values entries_per_block fuel (last * entries_per_block)

/-- Embeds `Index::new` (main.rs lines 67-98).  `entries_per_index_block =
(min_index_block / index_entry_size).max(min_branch)`, `index_block_size =
index_entry_size * entries_per_index_block`, then the coverage loop seeded
with `values_per_data_block`, with fuel `total_values + 1` (sufficient for
every terminating run, see `coverageAux_stable`). -/
def Index.new (params : Params) (index_type : IndexType)
    (index_entry_size values_per_data_block : Nat) : Index :=
  let entries_per_index_block :=
    max (params.min_index_block / index_entry_size) params.min_branch
  let index_block_size := index_entry_size * entries_per_index_block
  let coverage := coverageAux params.total_values entries_per_index_block
    (params.total_values + 1) values_per_data_block
  { params := params
    index_type := index_type
    index_entry_size := index_entry_size
    entries_per_block := entries_per_index_block
    block_size := index_block_size
    coverage := coverage
    height := coverage.length }

/-- Embeds `Index::total_size` (main.rs lines 102-121): per coverage level,
the block count is `total_values / coverage` plus one when
`total_values % coverage > 0`; the sum of block counts times `block_size`. -/
def Index.total_size (self : Index) : Nat :=
  let total_values := self.params.total_values
  let total_index_blocks :=
    (self.coverage.map (fun coverage =>
      let quotient := total_values / coverage
      let remainder := 0 < total_values % coverage
      if remainder then quotient + 1 else quotient)).sum
  total_index_blocks * self.block_size

/-- Embeds `struct LayerFile` (main.rs lines 124-137). -/
structure LayerFile where
  params : Params
  values_per_data_block : Nat
  data_block_size : Nat
  total_data_blocks : Nat
  indexes : List Index

/-- Embeds `LayerFile::new` (main.rs lines 140-172): data-block layout and
the four index kinds with their entry sizes and base coverages. -/
def LayerFile.new (params : Params) : LayerFile :=
  let values_per_data_block :=
    max (params.min_data_block / params.value_size) params.min_branch
  let data_block_size := params.value_size * values_per_data_block
  let total_data_blocks := params.total_data_size / data_block_size
  let data_index := Index.new params IndexType.Data
    (2 * params.value_size) values_per_data_block
  let c1row_index := Index.new params IndexType.C1Row 6 values_per_data_block
  let row_index := Index.new params IndexType.Row 12 values_per_data_block
  let filter_index := Index.new params IndexType.Filter 5 65536
  { params := params
    values_per_data_block := values_per_data_block
    data_block_size := data_block_size
    total_data_blocks := total_data_blocks
    indexes := [data_index, c1row_index, row_index, filter_index] }

/-! ## Unfolding lemmas

The constructors use `let` bindings just as the source does; these `rfl`
lemmas expose the fields. -/

lemma Index.new_params (p : Params) (t : IndexType) (s b : Nat) :
    (Index.new p t s b).params = p := rfl

lemma Index.new_index_entry_size (p : Params) (t : IndexType) (s b : Nat) :
    (Index.new p t s b).index_entry_size = s := rfl

lemma Index.new_entries_per_block (p : Params) (t : IndexType) (s b : Nat) :
    (Index.new p t s b).entries_per_block
      = max (p.min_index_block / s) p.min_branch := rfl

lemma Index.new_block_size (p : Params) (t : IndexType) (s b : Nat) :
    (Index.new p t s b).block_size
      = s * max (p.min_index_block / s) p.min_branch := rfl

lemma Index.new_coverage (p : Params) (t : IndexType) (s b : Nat) :
    (Index.new p t s b).coverage
      = coverageAux p.total_values (max (p.min_index_block / s) p.min_branch)
          (p.total_values + 1) b := rfl

lemma Index.new_height (p : Params) (t : IndexType) (s b : Nat) :
    (Index.new p t s b).height = (Index.new p t s b).coverage.length := rfl

lemma Index.total_size_def (i : Index) :
    i.total_size = (i.coverage.map (fun c =>
      if 0 < i.params.total_values % c then i.params.total_values / c + 1
      else i.params.total_values / c)).sum * i.block_size := rfl

lemma LayerFile.new_values_per_data_block (p : Params) :
    (LayerFile.new p).values_per_data_block
      = max (p.min_data_block / p.value_size) p.min_branch := rfl

lemma LayerFile.new_data_block_size (p : Params) :
    (LayerFile.new p).data_block_size
      = p.value_size * max (p.min_data_block / p.value_size) p.min_branch := rfl

/-! ## Properties of the coverage loop -/

/-- If the break condition already holds, the loop body never runs. -/
lemma coverageAux_of_le (total_values entries_per_block last : Nat)
    (h : total_values ≤ last) :
    ∀ fuel, coverageAux total_values entries_per_block fuel last = [] := by
  intro fuel
  cases fuel with
  | zero => rfl
  | succ fuel => simp [coverageAux, h]

/-- The loop either stops at once or appends `last * entries_per_block`
first. -/
lemma coverageAux_head_eq (total_values entries_per_block : Nat)
    (fuel last : Nat) :
    coverageAux total_values entries_per_block fuel last = [] ∨
      ∃ t, coverageAux total_values entries_per_block fuel last
        = (last * entries_per_block) :: t := by
  cases fuel with
  | zero => exact Or.inl rfl
  | succ fuel =>
    by_cases h : total_values ≤ last
    · exact Or.inl (by simp [coverageAux, h])
    · exact Or.inr ⟨coverageAux total_values entries_per_block fuel
        (last * entries_per_block), by simp [coverageAux, h]⟩

/-- With fan-out at least 2 and a positive accumulator, the accumulator at
least doubles each iteration, so any fuel of at least
`total_values - last` yields the same (fully terminated) result: the loop
terminates. -/
lemma coverageAux_stable (total_values entries_per_block : Nat)
    (he : 2 ≤ entries_per_block) :
    ∀ fuel₁ fuel₂ last, 0 < last →
      total_values ≤ last + fuel₁ → total_values ≤ last + fuel₂ →
      coverageAux total_values entries_per_block fuel₁ last
        = coverageAux total_values entries_per_block fuel₂ last := by
  intro fuel₁
  induction fuel₁ with
  | zero =>
    intro fuel₂ last hlast h₁ h₂
    rw [coverageAux_of_le _ _ _ (by omega) fuel₂]
    rfl
  | succ fuel₁ ih =>
    intro fuel₂ last hlast h₁ h₂
    by_cases hle : total_values ≤ last
    · rw [coverageAux_of_le _ _ _ hle, coverageAux_of_le _ _ _ hle]
    · obtain ⟨fuel₂', rfl⟩ : ∃ f, fuel₂ = f + 1 := ⟨fuel₂ - 1, by omega⟩
      have hmul : last * 2 ≤ last * entries_per_block :=
        Nat.mul_le_mul_left last he
      simp only [coverageAux, if_neg hle]
      rw [ih fuel₂' (last * entries_per_block)
        (Nat.mul_pos hlast (by omega)) (by omega) (by omega)]

/-- Raising the target `total_values` only extends the coverage list: the
run for the smaller target is an initial segment of the run for the
larger one (at equal fuel). -/
lemma coverageAux_append_of_le (entries_per_block : Nat) :
    ∀ fuel tv₁ tv₂ last, tv₁ ≤ tv₂ →
      ∃ r, coverageAux tv₁ entries_per_block fuel last ++ r
        = coverageAux tv₂ entries_per_block fuel last := by
  intro fuel
  induction fuel with
  | zero => intro tv₁ tv₂ last h; exact ⟨[], rfl⟩
  | succ fuel ih =>
    intro tv₁ tv₂ last h
    by_cases h₁ : tv₁ ≤ last
    · refine ⟨coverageAux tv₂ entries_per_block (fuel + 1) last, ?_⟩
      rw [coverageAux_of_le _ _ _ h₁]
      rfl
    · have h₂ : ¬ tv₂ ≤ last := by omega
      obtain ⟨r, hr⟩ := ih tv₁ tv₂ (last * entries_per_block) h
      exact ⟨r, by simp only [coverageAux, if_neg h₁, if_neg h₂,
        List.cons_append, hr]⟩

/-- Consecutive coverage entries are related by one factor of the fan-out. -/
lemma coverageAux_chain_mul (total_values entries_per_block : Nat) :
    ∀ fuel last, List.Chain' (fun a c => c = a * entries_per_block)
      (coverageAux total_values entries_per_block fuel last) := by
  intro fuel
  induction fuel with
  | zero => intro last; simp [coverageAux]
  | succ fuel ih =>
    intro last
    by_cases h : total_values ≤ last
    · simp [coverageAux, h]
    · simp only [coverageAux, if_neg h]
      rcases coverageAux_head_eq total_values entries_per_block fuel
          (last * entries_per_block) with hnil | ⟨t, ht⟩
      · rw [hnil]
        simp
      · rw [ht]
        exact List.Chain'.cons rfl (ht ▸ ih (last * entries_per_block))

/-- All coverage entries are positive when the seed and fan-out are. -/
lemma coverageAux_pos (total_values entries_per_block : Nat)
    (he : 0 < entries_per_block) :
    ∀ fuel last, 0 < last →
      ∀ x ∈ coverageAux total_values entries_per_block fuel last, 0 < x := by
  intro fuel
  induction fuel with
  | zero => intro last _ x hx; simp [coverageAux] at hx
  | succ fuel ih =>
    intro last hlast x hx
    by_cases h : total_values ≤ last
    · simp [coverageAux, h] at hx
    · simp only [coverageAux, if_neg h, List.mem_cons] at hx
      rcases hx with rfl | hx
      · exact Nat.mul_pos hlast he
      · exact ih (last * entries_per_block) (Nat.mul_pos hlast he) x hx

/-- The coverage entries are strictly increasing when the fan-out is at
least 2 and the seed positive. -/
lemma coverageAux_chain_lt (total_values entries_per_block : Nat)
    (he : 2 ≤ entries_per_block) :
    ∀ fuel last, 0 < last → List.Chain' (· < ·)
      (coverageAux total_values entries_per_block fuel last) := by
  intro fuel
  induction fuel with
  | zero => intro last _; simp [coverageAux]
  | succ fuel ih =>
    intro last hlast
    by_cases h : total_values ≤ last
    · simp [coverageAux, h]
    · simp only [coverageAux, if_neg h]
      have hpos : 0 < last * entries_per_block := Nat.mul_pos hlast (by omega)
      rcases coverageAux_head_eq total_values entries_per_block fuel
          (last * entries_per_block) with hnil | ⟨t, ht⟩
      · rw [hnil]
        simp
      · rw [ht]
        refine List.Chain'.cons ?_ (ht ▸ ih (last * entries_per_block) hpos)
        have : last * entries_per_block * 2
            ≤ last * entries_per_block * entries_per_block :=
          Nat.mul_le_mul_left _ he
        omega

/-- Every coverage entry other than the final one is below `total_values`:
the loop only continued past it because it had not yet reached the
target. -/
lemma coverageAux_dropLast_lt (total_values entries_per_block : Nat) :
    ∀ fuel last,
      ∀ x ∈ (coverageAux total_values entries_per_block fuel last).dropLast,
        x < total_values := by
  intro fuel
  induction fuel with
  | zero => intro last x hx; simp [coverageAux] at hx
  | succ fuel ih =>
    intro last x hx
    by_cases h : total_values ≤ last
    · simp [coverageAux, h] at hx
    · simp only [coverageAux, if_neg h] at hx
      rcases coverageAux_head_eq total_values entries_per_block fuel
          (last * entries_per_block) with hnil | ⟨t, ht⟩
      · rw [hnil] at hx
        simp at hx
      · rw [ht, List.dropLast_cons₂, List.mem_cons] at hx
        rcases hx with rfl | hx
        · by_contra hge
          have := coverageAux_of_le total_values entries_per_block
            (last * entries_per_block) (by omega) fuel
          rw [this] at ht
          exact (List.cons_ne_nil _ _) ht.symm
        · exact ih (last * entries_per_block) x (ht ▸ hx)

/-- With enough fuel (and fan-out ≥ 2, positive seed), the loop terminates
properly: its final entry has reached `total_values`. -/
lemma coverageAux_getLast_ge (total_values entries_per_block : Nat)
    (he : 2 ≤ entries_per_block) :
    ∀ fuel last, 0 < last → total_values ≤ last + fuel →
      ∀ x ∈ (coverageAux total_values entries_per_block fuel last).getLast?,
        total_values ≤ x := by
  intro fuel
  induction fuel with
  | zero => intro last _ _ x hx; simp [coverageAux] at hx
  | succ fuel ih =>
    intro last hlast hfuel x hx
    by_cases h : total_values ≤ last
    · simp [coverageAux, h] at hx
    · simp only [coverageAux, if_neg h] at hx
      have hmul : last * 2 ≤ last * entries_per_block :=
        Nat.mul_le_mul_left last he
      have hpos : 0 < last * entries_per_block := Nat.mul_pos hlast (by omega)
      rcases coverageAux_head_eq total_values entries_per_block fuel
          (last * entries_per_block) with hnil | ⟨t, ht⟩
      · rw [hnil, List.getLast?_singleton, Option.mem_def,
          Option.some.injEq] at hx
        subst hx
        -- The recursive call returned []: either the target was reached,
        -- or the fuel hit zero, which the fuel bound rules out except at
        -- `total_values = last + 1 ≤ last * entries_per_block`.
        by_cases hb : total_values ≤ last * entries_per_block
        · exact hb
        · cases fuel with
          | zero => omega
          | succ fuel =>
            exfalso
            have : coverageAux total_values entries_per_block (fuel + 1)
                (last * entries_per_block)
                = (last * entries_per_block * entries_per_block) ::
                  coverageAux total_values entries_per_block fuel
                    (last * entries_per_block * entries_per_block) := by
              simp [coverageAux, hb]
            rw [this] at hnil
            exact (List.cons_ne_nil _ _) hnil
      · rw [ht, List.getLast?_cons_cons] at hx
        exact ih (last * entries_per_block) hpos (by omega) x (ht ▸ hx)

/-- With fan-out exactly 1 and the target unreached, the loop never breaks:
it consumes all its fuel, one appended entry per unit. -/
lemma coverageAux_length_of_one (total_values : Nat) :
    ∀ fuel last, last < total_values →
      (coverageAux total_values 1 fuel last).length = fuel := by
  intro fuel
  induction fuel with
  | zero => intro last _; rfl
  | succ fuel ih =>
    intro last h
    simp only [coverageAux, if_neg (by omega : ¬ total_values ≤ last),
      List.length_cons, Nat.mul_one]
    rw [ih last h]

/-- Monotonicity of the integer ceiling `⌈a / c⌉` (in the shape the source
computes it) in the numerator. -/
lemma ceil_blocks_mono (c : Nat) {a b : Nat} (h : a ≤ b) :
    (if 0 < a % c then a / c + 1 else a / c)
      ≤ (if 0 < b % c then b / c + 1 else b / c) := by
  have hq : a / c ≤ b / c := Nat.div_le_div_right h
  by_cases hlt : a / c < b / c
  · split_ifs <;> omega
  · have heq : a / c = b / c := by omega
    have ha := Nat.div_add_mod a c
    have hb := Nat.div_add_mod b c
    rw [heq] at ha
    have hm : a % c ≤ b % c := by omega
    split_ifs <;> omega

/-- Each per-level block count is at least 1 once there is any data. -/
lemma one_le_ceil_blocks (c total_values : Nat) (htv : 0 < total_values) :
    1 ≤ (if 0 < total_values % c then total_values / c + 1
         else total_values / c) := by
  split_ifs with hr
  · exact Nat.le_add_left 1 _
  · have hmod : total_values % c = 0 := by omega
    have hc : 0 < c := by
      rcases Nat.eq_zero_or_pos c with rfl | hc
      · rw [Nat.mod_zero] at hmod
        omega
      · exact hc
    have hdvd : c ∣ total_values := Nat.dvd_of_mod_eq_zero hmod
    exact Nat.div_pos (Nat.le_of_dvd htv hdvd) hc

/-! ## Claim theorems -/

/-- Claim C1: for every `Params`, `entry_size > 0` and `base_coverage > 0`
with `entries_per_block > 1`, the coverage sequence built by `Index::new`
satisfies: `coverage[0] = base_coverage * entries_per_block` (stated via
`head?` on the possibly-empty list), each entry is the previous one times
`entries_per_block` (stated as a `Chain'`), the sequence is strictly
increasing, every entry before the last is `< total_values()`, and the
last entry (when the sequence is non-empty) is `≥ total_values()`. -/
theorem C1_coverage_sequence (p : Params) (t : IndexType) (s b : Nat)
    (hs : 0 < s) (hb : 0 < b)
    (he : 1 < (Index.new p t s b).entries_per_block) :
    ((Index.new p t s b).coverage = [] ∨
      (Index.new p t s b).coverage.head?
        = some (b * (Index.new p t s b).entries_per_block))
    ∧ List.Chain' (fun x y => y = x * (Index.new p t s b).entries_per_block)
        (Index.new p t s b).coverage
    ∧ (Index.new p t s b).coverage.Pairwise (· < ·)
    ∧ (∀ x ∈ (Index.new p t s b).coverage.dropLast, x < p.total_values)
    ∧ (∀ x ∈ (Index.new p t s b).coverage.getLast?, p.total_values ≤ x) := by
  have he' : 2 ≤ max (p.min_index_block / s) p.min_branch := he
  refine ⟨?_, ?_, ?_, ?_, ?_⟩
  · rw [Index.new_coverage, Index.new_entries_per_block]
    rcases coverageAux_head_eq p.total_values
        (max (p.min_index_block / s) p.min_branch) (p.total_values + 1) b
      with h | ⟨tl, h⟩
    · exact Or.inl h
    · exact Or.inr (by rw [h, List.head?_cons])
  · rw [Index.new_coverage, Index.new_entries_per_block]
    exact coverageAux_chain_mul _ _ _ _
  · rw [Index.new_coverage]
    rw [← List.chain'_iff_pairwise]
    exact coverageAux_chain_lt _ _ he' _ b hb
  · rw [Index.new_coverage]
    exact coverageAux_dropLast_lt _ _ _ b
  · rw [Index.new_coverage]
    exact coverageAux_getLast_ge _ _ he' _ b hb (by omega)

theorem C1_coverage_sequence_witness :
    (0 < (2:Nat) ∧ 0 < (4:Nat)
      ∧ 1 < (Index.new ⟨64, 2, 8, 8, 2⟩ IndexType.Data 2 4).entries_per_block)
    ∧ (((Index.new ⟨64, 2, 8, 8, 2⟩ IndexType.Data 2 4).coverage = [] ∨
        (Index.new ⟨64, 2, 8, 8, 2⟩ IndexType.Data 2 4).coverage.head?
          = some (4 * (Index.new ⟨64, 2, 8, 8, 2⟩ IndexType.Data 2 4).entries_per_block))
      ∧ List.Chain'
          (fun x y => y = x * (Index.new ⟨64, 2, 8, 8, 2⟩ IndexType.Data 2 4).entries_per_block)
          (Index.new ⟨64, 2, 8, 8, 2⟩ IndexType.Data 2 4).coverage
      ∧ (Index.new ⟨64, 2, 8, 8, 2⟩ IndexType.Data 2 4).coverage.Pairwise (· < ·)
      ∧ (∀ x ∈ (Index.new ⟨64, 2, 8, 8, 2⟩ IndexType.Data 2 4).coverage.dropLast,
          x < (⟨64, 2, 8, 8, 2⟩ : Params).total_values)
      ∧ (∀ x ∈ (Index.new ⟨64, 2, 8, 8, 2⟩ IndexType.Data 2 4).coverage.getLast?,
          (⟨64, 2, 8, 8, 2⟩ : Params).total_values ≤ x)) :=
  ⟨⟨by decide, by decide, by decide⟩,
    C1_coverage_sequence ⟨64, 2, 8, 8, 2⟩ IndexType.Data 2 4
      (by decide) (by decide) (by decide)⟩

/-- Claim C2: for every `Index`, `total_size()` equals `block_size` times
the sum over the coverage entries `c` of `ceil(total_values / c)`, the
ceiling computed as the integer quotient plus one exactly when
`total_values % c` is nonzero — pure integer arithmetic. -/
theorem C2_total_size_formula (i : Index) :
    i.total_size = i.block_size *
      (i.coverage.map (fun c => i.params.total_values / c +
        if i.params.total_values % c ≠ 0 then 1 else 0)).sum := by
  rw [Index.total_size_def, Nat.mul_comm]
  congr 1
  have hfun : (fun c => if 0 < i.params.total_values % c
        then i.params.total_values / c + 1 else i.params.total_values / c)
      = (fun c => i.params.total_values / c +
        if i.params.total_values % c ≠ 0 then 1 else 0) := by
    funext c
    by_cases h : i.params.total_values % c = 0
    · simp [h]
    · simp [h, Nat.pos_of_ne_zero h]
  rw [hfun]

/-- Claim C3: the concrete scenario `total_data_size = 2^40`,
`value_size = 16`, `min_data_block = 8192`, `min_index_block = 8192`,
`min_branch = 32` yields `total_values() = 2^36 = 68719476736`,
`values_per_data_block = 512`, and a Data index with `entry_size = 32`,
`entries_per_block = 256`, `height = 4` and coverage exactly
`[131072, 33554432, 8589934592, 2199023255552]`. -/
theorem C3_concrete_scenario :
    (⟨2^40, 16, 8192, 8192, 32⟩ : Params).total_values = 68719476736
    ∧ (68719476736 : Nat) = 2^36
    ∧ (LayerFile.new ⟨2^40, 16, 8192, 8192, 32⟩).values_per_data_block = 512
    ∧ (LayerFile.new ⟨2^40, 16, 8192, 8192, 32⟩).indexes.head?.map
        Index.index_entry_size = some 32
    ∧ (LayerFile.new ⟨2^40, 16, 8192, 8192, 32⟩).indexes.head?.map
        Index.entries_per_block = some 256
    ∧ (LayerFile.new ⟨2^40, 16, 8192, 8192, 32⟩).indexes.head?.map
        Index.height = some 4
    ∧ (LayerFile.new ⟨2^40, 16, 8192, 8192, 32⟩).indexes.head?.map
        Index.coverage = some [131072, 33554432, 8589934592, 2199023255552] := by
  refine ⟨by decide, by decide, by decide, by decide, by decide, ?_, ?_⟩
  · decide
  · decide

/-- Claim C4 as stated is false on the code: the derived block size can
fall below the configured minimum when the entry size does not divide it.
With the program's own default parameters, the Filter index (entry size 5)
gets `block_size = 5 * max (8192 / 5) 32 = 5 * 1638 = 8190 < 8192`. -/
theorem C4_counterexample :
    (Index.new ⟨2^40, 16, 8192, 8192, 32⟩ IndexType.Filter 5 65536).block_size
      = 8190
    ∧ ¬ ((⟨2^40, 16, 8192, 8192, 32⟩ : Params).min_index_block ≤
        (Index.new ⟨2^40, 16, 8192, 8192, 32⟩ IndexType.Filter 5 65536).block_size) := by
  constructor
  · decide
  · decide

/-- Claim C4, amended: `min_data_block` and `min_index_block` are lower
bounds on the derived block sizes whenever the relevant item size divides
them — in particular for the power-of-two sizes the spec asks callers to
supply: if `value_size > 0` divides `min_data_block` then
`data_block_size ≥ min_data_block`, and if `entry_size > 0` divides
`min_index_block` then `block_size ≥ min_index_block`.  (Without
divisibility the bound can fail by up to `entry_size - 1` bytes, see the
counterexample.) -/
theorem C4_block_size_lower_bound (p : Params) (t : IndexType) (s b : Nat) :
    (0 < p.value_size → p.value_size ∣ p.min_data_block →
      p.min_data_block ≤ (LayerFile.new p).data_block_size)
    ∧ (0 < s → s ∣ p.min_index_block →
      p.min_index_block ≤ (Index.new p t s b).block_size) := by
  constructor
  · intro _ hdvd
    rw [LayerFile.new_data_block_size]
    calc p.min_data_block
        = p.value_size * (p.min_data_block / p.value_size) :=
          (Nat.mul_div_cancel' hdvd).symm
      _ ≤ p.value_size * max (p.min_data_block / p.value_size) p.min_branch :=
          Nat.mul_le_mul_left _ (le_max_left _ _)
  · intro _ hdvd
    rw [Index.new_block_size]
    calc p.min_index_block
        = s * (p.min_index_block / s) := (Nat.mul_div_cancel' hdvd).symm
      _ ≤ s * max (p.min_index_block / s) p.min_branch :=
          Nat.mul_le_mul_left _ (le_max_left _ _)

theorem C4_block_size_lower_bound_witness :
    (0 < (16:Nat) ∧ (16:Nat) ∣ 8192
      ∧ (⟨2^40, 16, 8192, 8192, 32⟩ : Params).min_data_block
        ≤ (LayerFile.new ⟨2^40, 16, 8192, 8192, 32⟩).data_block_size)
    ∧ (0 < (32:Nat) ∧ (32:Nat) ∣ 8192
      ∧ (⟨2^40, 16, 8192, 8192, 32⟩ : Params).min_index_block
        ≤ (Index.new ⟨2^40, 16, 8192, 8192, 32⟩ IndexType.Data 32 512).block_size) :=
  ⟨⟨by decide, by decide,
      (C4_block_size_lower_bound ⟨2^40, 16, 8192, 8192, 32⟩
        IndexType.Data 32 512).1 (by decide) (by decide)⟩,
    ⟨by decide, by decide,
      (C4_block_size_lower_bound ⟨2^40, 16, 8192, 8192, 32⟩
        IndexType.Data 32 512).2 (by decide) (by decide)⟩⟩

/-- Claim C5: for valid parameters (`entry_size > 0`, `base_coverage > 0`,
`entries_per_block > 1`), the index built by `Index::new` has height 0 if
and only if the base coverage already reaches `total_values()`. -/
theorem C5_height_zero_iff (p : Params) (t : IndexType) (s b : Nat)
    (hs : 0 < s) (hb : 0 < b)
    (he : 1 < (Index.new p t s b).entries_per_block) :
    (Index.new p t s b).height = 0 ↔ p.total_values ≤ b := by
  rw [Index.new_height, Index.new_coverage, List.length_eq_zero]
  constructor
  · intro hnil
    by_contra hlt
    simp [coverageAux, hlt] at hnil
  · intro h
    exact coverageAux_of_le _ _ _ h _

theorem C5_height_zero_iff_witness :
    (0 < (2:Nat) ∧ 0 < (40:Nat)
      ∧ 1 < (Index.new ⟨64, 2, 8, 8, 2⟩ IndexType.Data 2 40).entries_per_block)
    ∧ ((Index.new ⟨64, 2, 8, 8, 2⟩ IndexType.Data 2 40).height = 0
        ↔ (⟨64, 2, 8, 8, 2⟩ : Params).total_values ≤ 40) :=
  ⟨⟨by decide, by decide, by decide⟩,
    C5_height_zero_iff ⟨64, 2, 8, 8, 2⟩ IndexType.Data 2 40
      (by decide) (by decide) (by decide)⟩

/-- Claim C6: for every `Params` and entry size `s > 0`, `Index::new`
computes `entries_per_block = max (min_index_block / s) min_branch`
(integer division, so the fan-out never falls below `min_branch`) and
`block_size = s * entries_per_block`, exactly. -/
theorem C6_fanout_formula (p : Params) (t : IndexType) (s b : Nat)
    (hs : 0 < s) :
    (Index.new p t s b).entries_per_block
        = max (p.min_index_block / s) p.min_branch
    ∧ p.min_branch ≤ (Index.new p t s b).entries_per_block
    ∧ (Index.new p t s b).block_size
        = s * (Index.new p t s b).entries_per_block := by
  refine ⟨rfl, ?_, rfl⟩
  rw [Index.new_entries_per_block]
  exact le_max_right _ _

theorem C6_fanout_formula_witness :
    0 < (32:Nat)
    ∧ ((Index.new ⟨2^40, 16, 8192, 8192, 32⟩ IndexType.Data 32 512).entries_per_block
        = max ((⟨2^40, 16, 8192, 8192, 32⟩ : Params).min_index_block / 32)
            (⟨2^40, 16, 8192, 8192, 32⟩ : Params).min_branch
      ∧ (⟨2^40, 16, 8192, 8192, 32⟩ : Params).min_branch
        ≤ (Index.new ⟨2^40, 16, 8192, 8192, 32⟩ IndexType.Data 32 512).entries_per_block
      ∧ (Index.new ⟨2^40, 16, 8192, 8192, 32⟩ IndexType.Data 32 512).block_size
        = 32 * (Index.new ⟨2^40, 16, 8192, 8192, 32⟩ IndexType.Data 32 512).entries_per_block) :=
  ⟨by decide,
    C6_fanout_formula ⟨2^40, 16, 8192, 8192, 32⟩ IndexType.Data 32 512 (by decide)⟩

/-- Claim C7: `LayerFile::new` always constructs exactly four `Index`
instances, in order Data, C1Row, Row, Filter, with entry sizes
`2 * value_size`, 6, 12 and 5 bytes, where the first three are seeded with
base coverage `values_per_data_block` and the Filter index with base
coverage 65536 regardless of `values_per_data_block`. -/
theorem C7_four_indexes (p : Params) :
    (LayerFile.new p).indexes =
      [Index.new p IndexType.Data (2 * p.value_size)
          (LayerFile.new p).values_per_data_block,
        Index.new p IndexType.C1Row 6 (LayerFile.new p).values_per_data_block,
        Index.new p IndexType.Row 12 (LayerFile.new p).values_per_data_block,
        Index.new p IndexType.Filter 5 65536]
    ∧ (LayerFile.new p).indexes.map Index.index_entry_size
        = [2 * p.value_size, 6, 12, 5]
    ∧ (LayerFile.new p).indexes.length = 4 :=
  ⟨rfl, rfl, rfl⟩

/-- Claim C8: with all parameters other than `total_data_size` fixed (and
the construction valid: positive base coverage, `entries_per_block > 1`),
`total_size()` is monotonically non-decreasing in `total_data_size`. -/
theorem C8_total_size_monotone (d₁ d₂ v mdb mib mb : Nat) (t : IndexType)
    (s b : Nat) (hd : d₁ ≤ d₂) (hb : 0 < b)
    (he : 1 < (Index.new ⟨d₁, v, mdb, mib, mb⟩ t s b).entries_per_block) :
    (Index.new ⟨d₁, v, mdb, mib, mb⟩ t s b).total_size
      ≤ (Index.new ⟨d₂, v, mdb, mib, mb⟩ t s b).total_size := by
  have he' : 2 ≤ max (mib / s) mb := he
  have htv : d₁ / v ≤ d₂ / v := Nat.div_le_div_right hd
  show ((coverageAux (d₁ / v) (max (mib / s) mb) (d₁ / v + 1) b).map
      (fun c => if 0 < (d₁ / v) % c then d₁ / v / c + 1 else d₁ / v / c)).sum
      * (s * max (mib / s) mb)
    ≤ ((coverageAux (d₂ / v) (max (mib / s) mb) (d₂ / v + 1) b).map
      (fun c => if 0 < (d₂ / v) % c then d₂ / v / c + 1 else d₂ / v / c)).sum
      * (s * max (mib / s) mb)
  have hstab : coverageAux (d₁ / v) (max (mib / s) mb) (d₁ / v + 1) b
      = coverageAux (d₁ / v) (max (mib / s) mb) (d₂ / v + 1) b :=
    coverageAux_stable _ _ he' _ _ b hb (by omega) (by omega)
  obtain ⟨r, hr⟩ := coverageAux_append_of_le (max (mib / s) mb)
    (d₂ / v + 1) (d₁ / v) (d₂ / v) b htv
  rw [hstab, ← hr, List.map_append, List.sum_append]
  refine Nat.mul_le_mul ?_ (le_refl _)
  refine le_trans (List.sum_le_sum ?_) (Nat.le_add_right _ _)
  intro c _
  exact ceil_blocks_mono c htv

theorem C8_total_size_monotone_witness :
    ((64:Nat) ≤ 256 ∧ 0 < (4:Nat)
      ∧ 1 < (Index.new ⟨64, 2, 8, 8, 2⟩ IndexType.Data 2 4).entries_per_block)
    ∧ (Index.new ⟨64, 2, 8, 8, 2⟩ IndexType.Data 2 4).total_size
      ≤ (Index.new ⟨256, 2, 8, 8, 2⟩ IndexType.Data 2 4).total_size :=
  ⟨⟨by decide, by decide, by decide⟩,
    C8_total_size_monotone 64 256 2 8 8 2 IndexType.Data 2 4
      (by decide) (by decide) (by decide)⟩

/-- Claim C9: under the caller's precondition `entries_per_block > 1` and
`base_coverage > 0`, the coverage loop terminates — rendered on the fuel
embedding as: any fuel of at least `total_values - base_coverage` yields
one and the same (fully terminated) result.  When `entries_per_block = 1`
and `base_coverage < total_values()`, the loop never reaches its break:
the result consumes every unit of fuel, so no finite fuel completes it. -/
theorem C9_loop_termination (p : Params) (t : IndexType) (s b : Nat)
    (hb : 0 < b) :
    (1 < (Index.new p t s b).entries_per_block →
      ∀ fuel₁ fuel₂ : Nat,
        p.total_values ≤ b + fuel₁ → p.total_values ≤ b + fuel₂ →
        coverageAux p.total_values
            (Index.new p t s b).entries_per_block fuel₁ b
          = coverageAux p.total_values
            (Index.new p t s b).entries_per_block fuel₂ b)
    ∧ ((Index.new p t s b).entries_per_block = 1 → b < p.total_values →
        ∀ fuel : Nat,
          (coverageAux p.total_values
            (Index.new p t s b).entries_per_block fuel b).length = fuel) := by
  constructor
  · intro he fuel₁ fuel₂ h₁ h₂
    exact coverageAux_stable _ _ he fuel₁ fuel₂ b hb h₁ h₂
  · intro he hlt fuel
    rw [Index.new_entries_per_block] at he
    rw [Index.new_entries_per_block, he]
    exact coverageAux_length_of_one _ fuel b hlt

theorem C9_loop_termination_witness :
    (0 < (4:Nat)
      ∧ 1 < (Index.new ⟨64, 2, 8, 8, 2⟩ IndexType.Data 2 4).entries_per_block
      ∧ (⟨64, 2, 8, 8, 2⟩ : Params).total_values ≤ 4 + 40
      ∧ (⟨64, 2, 8, 8, 2⟩ : Params).total_values ≤ 4 + 50)
    ∧ coverageAux (⟨64, 2, 8, 8, 2⟩ : Params).total_values
        (Index.new ⟨64, 2, 8, 8, 2⟩ IndexType.Data 2 4).entries_per_block 40 4
      = coverageAux (⟨64, 2, 8, 8, 2⟩ : Params).total_values
        (Index.new ⟨64, 2, 8, 8, 2⟩ IndexType.Data 2 4).entries_per_block 50 4 :=
  ⟨⟨by decide, by decide, by decide, by decide⟩,
    (C9_loop_termination ⟨64, 2, 8, 8, 2⟩ IndexType.Data 2 4 (by decide)).1
      (by decide) 40 50 (by decide) (by decide)⟩

/-- Claim C10: for a validly built index (`entries_per_block > 1`, positive
base coverage) with data present and at least one level, the topmost level
needs exactly one block — `ceil(total_values / coverage.last) = 1` — and
consequently `total_size() ≥ block_size`. -/
theorem C10_top_level_single_block (p : Params) (t : IndexType) (s b : Nat)
    (hb : 0 < b) (he : 1 < (Index.new p t s b).entries_per_block)
    (htv : 0 < p.total_values) (hh : 1 ≤ (Index.new p t s b).height) :
    (∀ c ∈ (Index.new p t s b).coverage.getLast?,
      p.total_values / c + (if 0 < p.total_values % c then 1 else 0) = 1)
    ∧ (Index.new p t s b).block_size ≤ (Index.new p t s b).total_size := by
  have he' : 2 ≤ max (p.min_index_block / s) p.min_branch := he
  constructor
  · intro c hc
    have hge : p.total_values ≤ c := by
      rw [Index.new_coverage] at hc
      exact coverageAux_getLast_ge _ _ he' _ b hb (by omega) c hc
    rcases Nat.lt_or_ge c p.total_values with hlt | hge2
    · omega
    · rcases Nat.eq_or_lt_of_le hge with heq | hlt
      · rw [← heq, Nat.div_self htv, Nat.mod_self]
        simp
      · rw [Nat.div_eq_of_lt hlt, Nat.mod_eq_of_lt hlt, if_pos htv]
  · rw [Index.total_size_def]
    simp only [Index.new_params]
    have hne : (Index.new p t s b).coverage ≠ [] := by
      rw [Index.new_height] at hh
      intro hcon
      rw [hcon] at hh
      simp at hh
    obtain ⟨x, xs, hx⟩ := List.exists_cons_of_ne_nil hne
    have hsum : 1 ≤ ((Index.new p t s b).coverage.map (fun c =>
        if 0 < p.total_values % c then p.total_values / c + 1
        else p.total_values / c)).sum := by
      rw [hx, List.map_cons, List.sum_cons]
      exact le_trans (one_le_ceil_blocks x p.total_values htv)
        (Nat.le_add_right _ _)
    calc (Index.new p t s b).block_size
        = 1 * (Index.new p t s b).block_size := (Nat.one_mul _).symm
      _ ≤ _ := Nat.mul_le_mul hsum (le_refl _)

theorem C10_top_level_single_block_witness :
    (0 < (4:Nat)
      ∧ 1 < (Index.new ⟨64, 2, 8, 8, 2⟩ IndexType.Data 2 4).entries_per_block
      ∧ 0 < (⟨64, 2, 8, 8, 2⟩ : Params).total_values
      ∧ 1 ≤ (Index.new ⟨64, 2, 8, 8, 2⟩ IndexType.Data 2 4).height)
    ∧ ((∀ c ∈ (Index.new ⟨64, 2, 8, 8, 2⟩ IndexType.Data 2 4).coverage.getLast?,
        (⟨64, 2, 8, 8, 2⟩ : Params).total_values / c +
          (if 0 < (⟨64, 2, 8, 8, 2⟩ : Params).total_values % c then 1 else 0) = 1)
      ∧ (Index.new ⟨64, 2, 8, 8, 2⟩ IndexType.Data 2 4).block_size
        ≤ (Index.new ⟨64, 2, 8, 8, 2⟩ IndexType.Data 2 4).total_size) :=
  ⟨⟨by decide, by decide, by decide, by decide⟩,
    C10_top_level_single_block ⟨64, 2, 8, 8, 2⟩ IndexType.Data 2 4
      (by decide) (by decide) (by decide) (by decide)⟩

end StorageDesign
